import Mathlib

/-!
Verification development for the msdparser repository (a streaming lexer and
parser for the MSD `#key:value;` format).

The embedding translates `src/msdparser/lexer.py`, `src/msdparser/parser.py`
and `src/msdparser/parameter.py` into executable Lean definitions:

* strings are `List Char`;
* the input source (`file.read(4096)` / `StringIO.read(4096)`) is a list of
  chunks; a string input is cut into chunks of `READ_SIZE = 4096`;
* the lexer's inner `while` loop runs on explicit fuel; one lexer step always
  consumes at least one buffered character, so `buf.length` fuel is exact
  (`lexBufferF` reports `outOfFuel` if it would ever run dry, and we prove it
  does not);
* Python exceptions (`MSDParserError`, the lexer's `assert False`, the
  serializer's `ValueError`s and `assert`s) become explicit error values.
-/

set_option maxRecDepth 20000

namespace Msd

def chars (s : String) : List Char := s.toList

deriving instance DecidableEq for Except

/-- `MSDToken` from lexer.py. -/
inductive MSDToken where
  | TEXT
  | START_PARAMETER
  | NEXT_COMPONENT
  | END_PARAMETER
  | ESCAPE
  | COMMENT
deriving DecidableEq, Repr

/-- `LexerMatch` from lexer.py: the eight regexes, in source order. -/
inductive LexerMatch where
  | ESCAPED_TEXT    -- [^\\/:;#]+
  | UNESCAPED_TEXT  -- [^/:;#]+
  | POUND           -- #
  | COLON           -- :
  | SEMICOLON       -- ;
  | ESCAPE          -- (?s)\\.   (a backslash plus any one character)
  | COMMENT         -- //[^\r\n]*
  | SLASH           -- /
deriving DecidableEq, Repr

/-- The character class `[\\/:;#]` stopping an `ESCAPED_TEXT` run. -/
def escapedTextStop (c : Char) : Bool :=
  c = '\\' || c = '/' || c = ':' || c = ';' || c = '#'

/-- The character class `[/:;#]` stopping an `UNESCAPED_TEXT` run. -/
def unescapedTextStop (c : Char) : Bool :=
  c = '/' || c = ':' || c = ';' || c = '#'

def isNewlineChar (c : Char) : Bool := c = '\r' || c = '\n'

/-- `re.match` of each `LexerMatch` regex against the start of the buffer:
`some (matched, rest)` with `buffer = matched ++ rest`, or `none`. -/
def regexMatch : LexerMatch → List Char → Option (List Char × List Char)
  | .ESCAPED_TEXT, buf =>
      let m := buf.takeWhile (fun c => !escapedTextStop c)
      if m.isEmpty then none
      else some (m, buf.dropWhile (fun c => !escapedTextStop c))
  | .UNESCAPED_TEXT, buf =>
      let m := buf.takeWhile (fun c => !unescapedTextStop c)
      if m.isEmpty then none
      else some (m, buf.dropWhile (fun c => !unescapedTextStop c))
  | .POUND, buf =>
      match buf with
      | '#' :: rest => some (['#'], rest)
      | _ => none
  | .COLON, buf =>
      match buf with
      | ':' :: rest => some ([':'], rest)
      | _ => none
  | .SEMICOLON, buf =>
      match buf with
      | ';' :: rest => some ([';'], rest)
      | _ => none
  | .ESCAPE, buf =>
      match buf with
      | '\\' :: c :: rest => some (['\\', c], rest)
      | _ => none
  | .COMMENT, buf =>
      match buf with
      | '/' :: '/' :: rest =>
          some ('/' :: '/' :: rest.takeWhile (fun c => !isNewlineChar c),
                rest.dropWhile (fun c => !isNewlineChar c))
      | _ => none
  | .SLASH, buf =>
      match buf with
      | '/' :: rest => some (['/'], rest)
      | _ => none

/-- `LexerPattern` from lexer.py. -/
structure LexerPattern where
  pat : LexerMatch
  token_outside_param : MSDToken
  token_inside_param : MSDToken
  escapes : Option Bool := none
deriving DecidableEq, Repr

/-- `LEXER_PATTERNS` from lexer.py, in source order. -/
def LEXER_PATTERNS : List LexerPattern :=
  [ { pat := .ESCAPED_TEXT, token_outside_param := .TEXT,
      token_inside_param := .TEXT, escapes := some true },
    { pat := .UNESCAPED_TEXT, token_outside_param := .TEXT,
      token_inside_param := .TEXT, escapes := some false },
    { pat := .POUND, token_outside_param := .START_PARAMETER,
      token_inside_param := .TEXT },
    { pat := .COLON, token_outside_param := .TEXT,
      token_inside_param := .NEXT_COMPONENT },
    { pat := .SEMICOLON, token_outside_param := .TEXT,
      token_inside_param := .END_PARAMETER },
    { pat := .ESCAPE, token_outside_param := .TEXT,
      token_inside_param := .ESCAPE, escapes := some true },
    { pat := .COMMENT, token_outside_param := .COMMENT,
      token_inside_param := .COMMENT },
    { pat := .SLASH, token_outside_param := .TEXT,
      token_inside_param := .TEXT } ]

/-- The `lexer_patterns` local of `lex_msd`: patterns whose `escapes` field is
`None` or equals the `escapes` flag. -/
def activePatterns (escapes : Bool) : List LexerPattern :=
  LEXER_PATTERNS.filter (fun p => p.escapes = none || p.escapes = some escapes)

/-- The `for pattern, regex in lexer_patterns` loop: first pattern that
matches the buffer. -/
def findMatch : List LexerPattern → List Char → Option (LexerPattern × List Char × List Char)
  | [], _ => none
  | p :: ps, buf =>
      match regexMatch p.pat buf with
      | some (m, rest) => some (p, m, rest)
      | none => findMatch ps buf

/-- Characters stripped by `matched_text.rstrip("\r\n\t ")`. -/
def strippableWs (c : Char) : Bool := c = '\r' || c = '\n' || c = '\t' || c = ' '

/-- `matched_text.rstrip("\r\n\t ")`. -/
def rstripWs (l : List Char) : List Char := (l.reverse.dropWhile strippableWs).reverse

/-- The suffix removed by `rstrip`, i.e. `matched_text[len(matched_text_before_ws):]`. -/
def wsTail (l : List Char) : List Char := (l.reverse.takeWhile strippableWs).reverse

/-- `matched_text[last_nl + 1:]` where `last_nl = max(rfind '\r', rfind '\n')`. -/
def afterLastNewline (l : List Char) : List Char :=
  (l.reverse.takeWhile (fun c => !isNewlineChar c)).reverse

/-- `re.fullmatch(SPACE_OR_TAB, s)` where `SPACE_OR_TAB = [ \t]*`. -/
def spaceOrTabOnly (l : List Char) : Bool := l.all (fun c => c = ' ' || c = '\t')

/-- One iteration of the `for pattern, regex ...` body of `lex_msd`
(lexer.py lines 184-225), including the missing-semicolon recovery:
`none` is the `assert False, "no regex matches ..."` branch; otherwise the
tokens yielded in this iteration (one, or two in the recovery case), the new
`inside_parameter` flag and the remaining buffer. -/
def lexMatched (inside : Bool) (p : LexerPattern) (matchedText rest : List Char) :
    List (MSDToken × List Char) × Bool × List Char :=
  let token := if inside then p.token_inside_param else p.token_outside_param
  if rest.head? = some '#' && inside && token = MSDToken.TEXT
      && matchedText.any isNewlineChar
      && spaceOrTabOnly (afterLastNewline matchedText) then
    -- recover from a missing ';' at the end of a line
    let before := rstripWs matchedText
    ((if before.isEmpty then [] else [(MSDToken.TEXT, before)])
        ++ [(MSDToken.END_PARAMETER, wsTail matchedText)],
      false, rest)
  else
    let inside2 :=
      if token = MSDToken.START_PARAMETER then true
      else if token = MSDToken.END_PARAMETER then false
      else inside
    ([(token, matchedText)], inside2, rest)

def lexStep (escapes inside : Bool) (buf : List Char) :
    Option (List (MSDToken × List Char) × Bool × List Char) :=
  match findMatch (activePatterns escapes) buf with
  | none => none
  | some (p, matchedText, rest) => some (lexMatched inside p matchedText rest)

inductive LexStatus where
  | ok         -- generator finished normally
  | failed     -- the `assert False, "no regex matches ..."` fired
  | outOfFuel  -- artifact of the fuel encoding; proved unreachable
deriving DecidableEq, Repr

structure LexOut where
  toks : List (MSDToken × List Char)
  inside : Bool
  buffer : List Char
  status : LexStatus
deriving DecidableEq, Repr

/-- The guard of the inner `while` loop of `lex_msd`: the buffer holds a
newline, or we are done reading and it is nonempty. -/
def bufferReady (done : Bool) (buf : List Char) : Bool :=
  buf.contains '\n' || buf.contains '\r' || (done && !buf.isEmpty)

/-- The inner `while` loop of `lex_msd`, on fuel (each step consumes at least
one character, so `buf.length` fuel is exact). -/
def lexBufferF (escapes done : Bool) : Nat → Bool → List Char → LexOut
  | 0, inside, buf =>
    if bufferReady done buf then ⟨[], inside, buf, .outOfFuel⟩
    else ⟨[], inside, buf, .ok⟩
  | fuel + 1, inside, buf =>
    if bufferReady done buf then
      match lexStep escapes inside buf with
      | none => ⟨[], inside, buf, .failed⟩
      | some (toks, inside2, rest) =>
        match lexBufferF escapes done fuel inside2 rest with
        | ⟨toks2, inside3, buf3, status3⟩ => ⟨toks ++ toks2, inside3, buf3, status3⟩
    else ⟨[], inside, buf, .ok⟩

/-- The outer `while not done_reading` loop of `lex_msd`: each list element is
one nonempty `read(4096)` result; after the list is exhausted `read` returns
the empty string and `done_reading` becomes true. -/
def lexChunksGo (escapes : Bool) : List (List Char) → Bool → List Char → LexOut
  | [], inside, buf => lexBufferF escapes true buf.length inside buf
  | c :: cs, inside, buf =>
      match lexBufferF escapes false (buf ++ c).length inside (buf ++ c) with
      | ⟨toks1, inside1, buf1, .ok⟩ =>
          match lexChunksGo escapes cs inside1 buf1 with
          | ⟨toks2, inside2, buf2, status2⟩ =>
              ⟨toks1 ++ toks2, inside2, buf2, status2⟩
      | ⟨toks1, inside1, buf1, st⟩ => ⟨toks1, inside1, buf1, st⟩

def lexChunks (escapes : Bool) (chunks : List (List Char)) : LexOut :=
  lexChunksGo escapes chunks false []

def READ_SIZE : Nat := 4096

/-- Successive `read(4096)` results for a `StringIO` over `s`, on fuel. -/
def readChunksF : Nat → List Char → List (List Char)
  | _, [] => []
  | 0, s => [s]
  | fuel + 1, s => s.take READ_SIZE :: readChunksF fuel (s.drop READ_SIZE)

def readChunks (s : List Char) : List (List Char) := readChunksF s.length s

/-- `lex_msd(string=s, escapes=escapes)`. -/
def lex_msd (escapes : Bool) (s : List Char) : LexOut :=
  lexChunks escapes (readChunks s)

/-! ### parser.py -/

/-- `MSDParserError` from parser.py, with the data interpolated into the
message kept structured: the offending character and `last_key` for stray
text, the key for a missing semicolon.  `lexerFailed` stands for the
`AssertionError` that propagates out of `lex_msd` when no pattern matches. -/
inductive MSDParserError where
  | strayText (ch : Char) (lastKey : Option (List Char))
  | missingSemicolon (key : List Char)
  | lexerFailed
deriving DecidableEq, Repr

/-- `MSDParameter` from parameter.py (the dataclass fields). -/
structure MSDParameter where
  components : List (List Char)
  preamble : Option (List Char) := none
  comments : List (Nat × List Char) := []
  escapePositions : Option (List Nat) := none
  suffix : List Char := []
deriving DecidableEq, Repr

/-- The mutable locals of `parse_msd` (parser.py lines 52-79).
`revComponents` holds the component buffers most recent first, so
`components[-1]` is its head; `comments` is the dict as an insertion-ordered
association list. -/
structure ParserState where
  preamble : Option (List Char)
  revComponents : List (List Char)
  insideParameter : Bool
  lineInsideParameter : Nat
  charInsideParameter : Nat
  comments : List (Nat × List Char)
  escapePositions : List Nat
  suffix : List Char
  lastKey : Option (List Char)
deriving DecidableEq, Repr

def initState : ParserState :=
  { preamble := some [], revComponents := [], insideParameter := false,
    lineInsideParameter := 0, charInsideParameter := 0, comments := [],
    escapePositions := [], suffix := [], lastKey := none }

/-- Python `str.isspace` on a single character (Unicode whitespace). -/
def pythonIsSpace (c : Char) : Bool :=
  c == ' ' || c == '\t' || c == '\n' || c == '\r'
    || c.toNat == 0x0b || c.toNat == 0x0c
    || (0x1c ≤ c.toNat && c.toNat ≤ 0x1f)
    || c.toNat == 0x85 || c.toNat == 0xa0 || c.toNat == 0x1680
    || (0x2000 ≤ c.toNat && c.toNat ≤ 0x200a)
    || c.toNat == 0x2028 || c.toNat == 0x2029 || c.toNat == 0x202f
    || c.toNat == 0x205f || c.toNat == 0x3000

/-- Python `text.isspace()`: nonempty and all whitespace. -/
def pyStrIsSpace (l : List Char) : Bool := !l.isEmpty && l.all pythonIsSpace

/-- Python `text.lstrip()`. -/
def lstripPy (l : List Char) : List Char := l.dropWhile pythonIsSpace

/-- The byte order mark U+FEFF, special-cased by `push_text`. -/
def bomChar : Char := Char.ofNat 0xFEFF

/-- `components[-1].write(text)`.  (`parse_msd` only pushes component text
while a component is open, so the list is never empty here.) -/
def writeToCurrent (revComponents : List (List Char)) (text : List Char) :
    List (List Char) :=
  match revComponents with
  | [] => []
  | c :: rest => (c ++ text) :: rest

/-- `push_text` (parser.py lines 81-107).  `nlSource` is the enclosing
loop's `value` variable, which the closure reads for the newline count
(`line_inside_parameter += value.count("\n")`); for `TEXT` tokens it equals
`text`, and for `ESCAPE` tokens it is the two-character escape. -/
def push_text (strict : Bool) (st : ParserState) (text nlSource : List Char) :
    Except MSDParserError ParserState :=
  if st.insideParameter then
    .ok { st with
          revComponents := writeToCurrent st.revComponents text,
          charInsideParameter := st.charInsideParameter + text.length,
          lineInsideParameter := st.lineInsideParameter + nlSource.count '\n' }
  else
    if !text.isEmpty && strict && !pyStrIsSpace text && text ≠ [bomChar] then
      .error (.strayText ((lstripPy text).headD ' ') st.lastKey)
    else if st.preamble.isSome && st.revComponents.isEmpty then
      .ok { st with preamble := st.preamble.map (· ++ text) }
    else
      .ok { st with suffix := st.suffix ++ text }

/-- `next_component` (parser.py lines 109-114). -/
def next_component (st : ParserState) : ParserState :=
  { st with insideParameter := true,
            revComponents := [] :: st.revComponents,
            charInsideParameter := st.charInsideParameter + 1 }

/-- `assemble_parameter` (parser.py lines 116-131): the zero or one
parameters it yields. -/
def assemble_parameter (escapes : Bool) (st : ParserState) : List MSDParameter :=
  if st.revComponents.isEmpty then []
  else
    [{ components := st.revComponents.reverse,
       preamble := st.preamble,
       comments := st.comments,
       escapePositions := if escapes then some st.escapePositions else none,
       suffix := st.suffix }]

/-- `reset_state` (parser.py lines 133-147). -/
def reset_state (st : ParserState) : ParserState :=
  { preamble := none, revComponents := [], insideParameter := true,
    lineInsideParameter := 0, charInsideParameter := 0, comments := [],
    escapePositions := [], suffix := [], lastKey := st.lastKey }

/-- `comments[line_inside_parameter] = value`: Python dict assignment keeps
the first-insertion position of an existing key and replaces its value. -/
def dictSet (comments : List (Nat × List Char)) (line : Nat) (text : List Char) :
    List (Nat × List Char) :=
  if comments.any (fun p => p.1 == line) then
    comments.map (fun p => if p.1 == line then (line, text) else p)
  else comments ++ [(line, text)]

/-- `components[0].getvalue()`: the key of the in-progress parameter. -/
def currentKey (st : ParserState) : List Char := st.revComponents.getLastD []

/-- One iteration of the `for token, value in tokens` loop of `parse_msd`
(parser.py lines 156-209): the parameters yielded during the iteration, the
state afterwards, and the raised `MSDParserError` if any (in which case the
parameters yielded before the raise are included, per the
`except MSDParserError: if components: yield from assemble_parameter()`
blocks). -/
def processToken (escapes strict : Bool) (st : ParserState)
    (token : MSDToken) (value : List Char) :
    List MSDParameter × ParserState × Option MSDParserError :=
  match token with
  | .TEXT =>
      match push_text strict st value value with
      | .ok st2 => ([], st2, none)
      | .error e => (assemble_parameter escapes st, st, some e)
  | .START_PARAMETER =>
      if !st.revComponents.isEmpty then
        (assemble_parameter escapes st, next_component (reset_state st), none)
      else
        ([], next_component st, none)
  | .END_PARAMETER =>
      let key := currentKey st
      let st2 := { st with insideParameter := false, lastKey := some key,
                           suffix := st.suffix ++ value }
      if value ≠ [';'] && strict then ([], st2, some (.missingSemicolon key))
      else ([], st2, none)
  | .NEXT_COMPONENT => ([], next_component st, none)
  | .ESCAPE =>
      let st1 :=
        if st.insideParameter then
          { st with
            escapePositions := st.escapePositions ++ [st.charInsideParameter],
            charInsideParameter := st.charInsideParameter + 1 }
        else st
      -- `push_text(value[1])`: lexer escape tokens are exactly two characters
      match push_text strict st1 ((value.drop 1).take 1) value with
      | .ok st2 => ([], st2, none)
      | .error e => (assemble_parameter escapes st1, st1, some e)
  | .COMMENT =>
      if st.insideParameter then
        ([], { st with
               comments := dictSet st.comments st.lineInsideParameter value,
               charInsideParameter := st.charInsideParameter + value.length },
         none)
      else if st.preamble.isSome && st.revComponents.isEmpty then
        ([], { st with preamble := st.preamble.map (· ++ value) }, none)
      else
        ([], { st with suffix := st.suffix ++ value }, none)

/-- The whole `for token, value in tokens` loop. -/
def parseLoop (escapes strict : Bool) :
    ParserState → List (MSDToken × List Char) →
    List MSDParameter × ParserState × Option MSDParserError
  | st, [] => ([], st, none)
  | st, (t, v) :: ts =>
      match processToken escapes strict st t v with
      | (ps, st2, none) =>
          match parseLoop escapes strict st2 ts with
          | (ps2, st3, e) => (ps ++ ps2, st3, e)
      | (ps, st2, some e) => (ps, st2, some e)

/-- `parse_msd(string=s, escapes=escapes, strict=strict)`: the parameters
yielded, and the error raised if any.  A lexer failure (`assert False`)
aborts the token stream after its last yielded token, so the final
`yield from assemble_parameter()` is not reached. -/
def parse_msd (escapes strict : Bool) (s : List Char) :
    List MSDParameter × Option MSDParserError :=
  match lex_msd escapes s with
  | ⟨toks, _, _, lexStatus⟩ =>
      match parseLoop escapes strict initState toks with
      | (ps, st, none) =>
          match lexStatus with
          | .ok => (ps ++ assemble_parameter escapes st, none)
          | _ => (ps, some .lexerFailed)
      | (ps, _, some e) => (ps, some e)

/-! ### parameter.py: serialization -/

/-- The exceptions `MSDParameter.serialize` can raise: the two `ValueError`s
and the serializer's `assert` statements (`AssertionError`s), each kept as
its own constructor.  `outOfFuel` is an artifact of the fuel encoding of the
comment-walking loop; `component.length + 1` fuel always suffices since every
iteration consumes at least one character of the component. -/
inductive SerializeError where
  | unescapableComponent  -- "... can't be serialized without escapes"
  | exactEscapesContract  -- "Can't serialize parameter containing escapes ..."
  | lineOrderAssert       -- assert line <= line_with_comment
  | skipCountAssert       -- assert match.group(0).count("\n") == lines_to_skip
  | commentsLeftAssert    -- assert len(lines_with_comments) == 0
  | escapesLeftAssert     -- assert not escape_positions
  | outOfFuel
deriving DecidableEq, Repr

def MUST_ESCAPE : List (List Char) := [chars "//", chars ":", chars ";"]

def SHOULD_ESCAPE : List (List Char) := [chars "\\", chars "#"]

/-- Python `s.replace(pat, rep)`: non-overlapping, left to right; on fuel
(`s.length` suffices since every step consumes at least one character). -/
def replaceSubF : Nat → List Char → List Char → List Char → List Char
  | 0, s, _, _ => s
  | _ + 1, [], _, _ => []
  | fuel + 1, c :: rest, pat, rep =>
      if !pat.isEmpty && pat.isPrefixOf (c :: rest) then
        rep ++ replaceSubF fuel ((c :: rest).drop pat.length) pat rep
      else c :: replaceSubF fuel rest pat rep

def replaceSub (s pat rep : List Char) : List Char := replaceSubF s.length s pat rep

/-- Python `pat in s` (substring containment). -/
def containsSub (pat : List Char) : List Char → Bool
  | [] => pat.isEmpty
  | c :: rest => pat.isPrefixOf (c :: rest) || containsSub pat rest

/-- `MSDParameter._serialize_fragment_without_comments`
(parameter.py lines 98-120). -/
def serialize_fragment_without_comments (escapes : Bool) (component : List Char) :
    Except SerializeError (List Char) :=
  if escapes then
    .ok ((SHOULD_ESCAPE ++ MUST_ESCAPE).foldl
          (fun acc esc => replaceSub acc esc ('\\' :: esc)) component)
  else if MUST_ESCAPE.any (fun esc => containsSub esc component) then
    .error .unescapableComponent
  else .ok component

/-- `re.match(UNTIL_NEWLINE, component)` where
`UNTIL_NEWLINE = ([^\r\n]*)(\r?\n)`: `some (group1, group2, rest)`.  A bare
`\r` not followed by `\n` fails the match. -/
def untilNewline (component : List Char) : Option (List Char × List Char × List Char) :=
  let run := component.takeWhile (fun c => !isNewlineChar c)
  match component.dropWhile (fun c => !isNewlineChar c) with
  | '\n' :: rest => some (run, ['\n'], rest)
  | '\r' :: '\n' :: rest => some (run, ['\r', '\n'], rest)
  | _ => none

/-- `re.match(match_next_n_lines(n), component)` where the pattern is
`^(?:[^\r\n]*(?:\r?\n)){n}[^\r\n]*`: `some (group0, rest)`. -/
def matchNextNLines : Nat → List Char → Option (List Char × List Char)
  | 0, component =>
      some (component.takeWhile (fun c => !isNewlineChar c),
            component.dropWhile (fun c => !isNewlineChar c))
  | n + 1, component =>
      match untilNewline component with
      | none => none
      | some (run, nl, rest) =>
          match matchNextNLines n rest with
          | none => none
          | some (m, rest2) => some (run ++ nl ++ m, rest2)

/-- Python slice `l[:i]` for a possibly negative `i`. -/
def pyTake (l : List Char) (i : Int) : List Char :=
  if 0 ≤ i then l.take i.toNat else l.take (l.length - (-i).toNat)

/-- Python slice `l[i:]` for a possibly negative `i`. -/
def pyDrop (l : List Char) (i : Int) : List Char :=
  if 0 ≤ i then l.drop i.toNat else l.drop (l.length - (-i).toNat)

/-- `write_and_pop_escapes` (parameter.py lines 142-157): the written text,
the updated `position` and the remaining `escape_positions`. -/
def writeAndPopEscapes (fragment : List Char) (position : Int) :
    List Int → List Char × Int × List Int
  | [] => (fragment, position + fragment.length, [])
  | e :: es =>
      if !fragment.isEmpty && position + fragment.length > e then
        let next_escape := e - position
        match writeAndPopEscapes (pyDrop fragment next_escape) (e + 1) es with
        | (out2, pos2, rem) =>
            (pyTake fragment next_escape ++ '\\' :: out2, pos2, rem)
      else (fragment, position + fragment.length, e :: es)

/-- `comments[line]` lookup in the dict built from `self.comments`. -/
def dictGet (dict : List (Nat × List Char)) (k : Nat) : List Char :=
  ((dict.find? (fun p => p.1 == k)).map (fun p => p.2)).getD []

/-- The `while component and lines_with_comments` loop of
`_serialize_components_exact` (parameter.py lines 160-199), on fuel.
Arguments after the fuel: the current component, the output written so far,
`position`, `line`, `lines_with_comments`, `escape_positions`.  Returns the
leftover value of the `component` variable at the `break`/loop exit together
with the updated state. -/
def exactLoopF (dict : List (Nat × List Char)) :
    Nat → List Char → List Char → Int → Nat → List Nat → List Int →
    Except SerializeError (List Char × List Char × Int × Nat × List Nat × List Int)
  | 0, _, _, _, _, _, _ => .error .outOfFuel
  | _ + 1, [], out, position, line, lwcs, escapes =>
      .ok ([], out, position, line, lwcs, escapes)
  | _ + 1, c :: cr, out, position, line, [], escapes =>
      .ok (c :: cr, out, position, line, [], escapes)
  | fuel + 1, c :: cr, out, position, line, lwc :: lwcs, escapes =>
      if line > lwc then .error .lineOrderAssert
      else if line == lwc then
        match untilNewline (c :: cr) with
        | none =>
            -- no newline left: write the component and break (component = "")
            match writeAndPopEscapes (c :: cr) position escapes with
            | (w, pos2, es2) => .ok ([], out ++ w, pos2, line, lwc :: lwcs, es2)
        | some (frag, nl, rest) =>
            -- insert the comment before the newline
            match writeAndPopEscapes frag position escapes with
            | (w1, p1, e1) =>
              match writeAndPopEscapes (dictGet dict lwc) p1 e1 with
              | (w2, p2, e2) =>
                match writeAndPopEscapes nl p2 e2 with
                | (w3, p3, e3) =>
                    exactLoopF dict fuel rest (out ++ w1 ++ w2 ++ w3) p3
                      (line + 1) lwcs e3
      else
        let lines_to_skip := lwc - line
        match matchNextNLines lines_to_skip (c :: cr) with
        | none =>
            -- break with `component` still bound to the already-written text
            match writeAndPopEscapes (c :: cr) position escapes with
            | (w, pos2, es2) =>
                .ok (c :: cr, out ++ w, pos2,
                     line + (c :: cr).count '\n', lwc :: lwcs, es2)
        | some (m, rest) =>
            if m.count '\n' ≠ lines_to_skip then .error .skipCountAssert
            else
              match writeAndPopEscapes m position escapes with
              | (w, pos2, es2) =>
                  exactLoopF dict fuel rest (out ++ w) pos2
                    (line + lines_to_skip) (lwc :: lwcs) es2

/-- The `for c, component in enumerate(self.components)` loop (parameter.py
lines 159-203): a `:` is written after every component but the last, and a
non-last component's leftover is discarded (only the `component` variable's
final value survives the loop).  Returns the leftover of the last component
with the final state. -/
def exactComponents (dict : List (Nat × List Char)) :
    List (List Char) → List Char → Int → Nat → List Nat → List Int →
    Except SerializeError (List Char × List Char × Int × Nat × List Nat × List Int)
  | [], out, position, line, lwcs, escapes =>
      -- `self.components` is never empty when produced by `parse_msd`
      .ok ([], out, position, line, lwcs, escapes)
  | [c], out, position, line, lwcs, escapes =>
      exactLoopF dict (c.length + 1) c out position line lwcs escapes
  | c :: cs, out, position, line, lwcs, escapes =>
      match exactLoopF dict (c.length + 1) c out position line lwcs escapes with
      | .error e => .error e
      | .ok (_, out2, p2, l2, lw2, es2) =>
          exactComponents dict cs (out2 ++ [':']) (p2 + 1) l2 lw2 es2

/-- Insertion step for `sortedList`. -/
def insertLe {α : Type} (le : α → α → Bool) (a : α) : List α → List α
  | [] => [a]
  | b :: bs => if le a b then a :: b :: bs else b :: insertLe le a bs

/-- Python `sorted(...)` (insertion sort; stable, and the lists sorted here
are lists of integers). -/
def sortedList {α : Type} (le : α → α → Bool) (l : List α) : List α :=
  l.foldr (insertLe le) []

/-- Truthiness of `self.escape_positions` (an `Optional[Sequence[int]]`). -/
def escapePositionsTruthy (p : MSDParameter) : Bool :=
  match p.escapePositions with
  | some (_ :: _) => true
  | _ => false

/-- `MSDParameter._serialize_components_exact` (parameter.py lines 122-212). -/
def serialize_components_exact (p : MSDParameter) (escapes : Bool) :
    Except SerializeError (List Char) :=
  if !escapes && escapePositionsTruthy p then .error .exactEscapesContract
  else
    let dict := p.comments.foldl (fun d pr => dictSet d pr.1 pr.2) []
    let escapes0 : List Int :=
      sortedList (fun a b => a ≤ b) ((p.escapePositions.getD []).map Int.ofNat)
    let lwcs := sortedList (fun a b => a ≤ b) (dict.map (fun pr => pr.1))
    match exactComponents dict p.components [] 1 0 lwcs escapes0 with
    | .error e => .error e
    | .ok (leftover, out, position, _, lwcs2, escapes2) =>
        if !lwcs2.isEmpty then .error .commentsLeftAssert
        else if leftover.isEmpty then
          if !escapes2.isEmpty then .error .escapesLeftAssert else .ok out
        else
          match writeAndPopEscapes leftover position escapes2 with
          | (w, _, escapes3) =>
              if !escapes3.isEmpty then .error .escapesLeftAssert
              else .ok (out ++ w)

/-- The `#c0:c1:...:cn` body written by the non-exact branch of `serialize`
(parameter.py lines 236-244). -/
def joinFragments (escapes : Bool) : List (List Char) →
    Except SerializeError (List Char)
  | [] => .ok []
  | [c] => serialize_fragment_without_comments escapes c
  | c :: cs =>
      match serialize_fragment_without_comments escapes c with
      | .error e => .error e
      | .ok f =>
          match joinFragments escapes cs with
          | .error e => .error e
          | .ok rest => .ok (f ++ ':' :: rest)

/-- Truthiness of `self.preamble` (`None` and the empty string are falsy). -/
def preambleTruthy (p : MSDParameter) : Bool :=
  match p.preamble with
  | some (_ :: _) => true
  | _ => false

/-- `MSDParameter.serialize` (parameter.py lines 214-248), collecting the
written output; note the exact component writer runs only when
`exact and self.comments` is truthy. -/
def serialize (p : MSDParameter) (escapes exact : Bool) :
    Except SerializeError (List Char) :=
  let pre := if exact && preambleTruthy p then p.preamble.getD [] else []
  match (if exact && !p.comments.isEmpty then serialize_components_exact p escapes
         else joinFragments escapes p.components) with
  | .error e => .error e
  | .ok body => .ok (pre ++ '#' :: (body ++ (if exact then p.suffix else [';'])))

/-- `MSDParameter.stringify` / `str()`. -/
def stringify (p : MSDParameter) (escapes exact : Bool) :
    Except SerializeError (List Char) :=
  serialize p escapes exact


/-! ### Definitions used to state the verified properties -/

/-- Concatenation of the text of a token list. -/
def concatTexts (toks : List (MSDToken × List Char)) : List Char :=
  toks.foldr (fun t acc => t.2 ++ acc) []

/-- Concatenation of a chunk list. -/
def concatChunks (cs : List (List Char)) : List Char :=
  cs.foldr (fun c acc => c ++ acc) []

/-- State machine over the token stream: `inside` flips at
`START_PARAMETER`/`END_PARAMETER`; `NEXT_COMPONENT`, `END_PARAMETER` and
`ESCAPE` may only occur inside a parameter and `START_PARAMETER` only
outside.  `some` is the final state, `none` an invalid stream. -/
def tokensValid : Bool → List (MSDToken × List Char) → Option Bool
  | inside, [] => some inside
  | inside, (t, _) :: ts =>
      match t with
      | .START_PARAMETER => if inside then none else tokensValid true ts
      | .END_PARAMETER => if inside then tokensValid false ts else none
      | .NEXT_COMPONENT => if inside then tokensValid true ts else none
      | .ESCAPE => if inside then tokensValid true ts else none
      | _ => tokensValid inside ts

/-- The claim's predicate: no two consecutive tokens are both `TEXT`. -/
def noAdjacentText : List (MSDToken × List Char) → Bool
  | (t1, _) :: (t2, s2) :: ts =>
      !(t1 == MSDToken.TEXT && t2 == MSDToken.TEXT)
        && noAdjacentText ((t2, s2) :: ts)
  | _ => true

/-- The text-run stop set in force for the given escapes setting
(`ESCAPED_TEXT` vs `UNESCAPED_TEXT`). -/
def textStop (escapes : Bool) (c : Char) : Bool :=
  if escapes then escapedTextStop c else unescapedTextStop c

/-- A maximal-text-run token: a `TEXT` token whose text is nonempty and free
of the run-stopping metacharacters. -/
def isRunText (escapes : Bool) (t : MSDToken × List Char) : Bool :=
  t.1 == MSDToken.TEXT && !t.2.isEmpty && t.2.all (fun c => !textStop escapes c)

/-- No two consecutive tokens are both maximal text runs. -/
def noAdjacentRuns (escapes : Bool) : List (MSDToken × List Char) → Bool
  | t1 :: t2 :: ts =>
      !(isRunText escapes t1 && isRunText escapes t2)
        && noAdjacentRuns escapes (t2 :: ts)
  | _ => true

def firstIsRun (escapes : Bool) (toks : List (MSDToken × List Char)) : Bool :=
  (toks.head?.map (isRunText escapes)).getD false

def lastIsRun (escapes : Bool) (toks : List (MSDToken × List Char)) : Bool :=
  (toks.getLast?.map (isRunText escapes)).getD false

/-- The buffer is empty or starts with a run-stopping character. -/
def headStopOrNil (escapes : Bool) : List Char → Bool
  | [] => true
  | c :: _ => textStop escapes c


end Msd

-- Sanity checks: the embedding reproduces the token streams of tests/test_lexer.py.
open Msd in
example :
    (lex_msd true (chars "#ABC:DEF\\:GHI;")).toks =
      [(.START_PARAMETER, chars "#"), (.TEXT, chars "ABC"),
       (.NEXT_COMPONENT, chars ":"), (.TEXT, chars "DEF"),
       (.ESCAPE, chars "\\:"), (.TEXT, chars "GHI"),
       (.END_PARAMETER, chars ";")] := by decide

open Msd in
example :
    (lex_msd true (chars "#A:B\nCD;#E:FGH\n#IJKL")).toks =
      [(.START_PARAMETER, chars "#"), (.TEXT, chars "A"),
       (.NEXT_COMPONENT, chars ":"), (.TEXT, chars "B\nCD"),
       (.END_PARAMETER, chars ";"),
       (.START_PARAMETER, chars "#"), (.TEXT, chars "E"),
       (.NEXT_COMPONENT, chars ":"), (.TEXT, chars "FGH"),
       (.END_PARAMETER, chars "\n"),
       (.START_PARAMETER, chars "#"), (.TEXT, chars "IJKL")] := by decide

open Msd in
example : (lex_msd true (chars "\\")).status = LexStatus.failed := by decide

open Msd in
example :
    (lex_msd true (chars "a/b")).toks =
      [(.TEXT, chars "a"), (.TEXT, chars "/"), (.TEXT, chars "b")] := by decide

-- Sanity checks: the embedding reproduces the parameters of tests/test_parser.py.
open Msd in
example :
    parse_msd true false (chars "#A:B;") =
      ([{ components := [chars "A", chars "B"], preamble := some [],
          comments := [], escapePositions := some [], suffix := chars ";" }],
       none) := by decide

open Msd in
example :
    parse_msd true false (chars "#A// comment //\r\nBC:D// ; \nEF;") =
      ([{ components := [chars "A\r\nBC", chars "D\nEF"], preamble := some [],
          comments := [(0, chars "// comment //"), (1, chars "// ; ")],
          escapePositions := some [], suffix := chars ";" }],
       none) := by decide

open Msd in
example :
    parse_msd true false (chars "#A\\:B:C\\;D;") =
      ([{ components := [chars "A:B", chars "C;D"], preamble := some [],
          comments := [], escapePositions := some [2, 7], suffix := chars ";" }],
       none) := by decide

open Msd in
example :
    (parse_msd true true (chars "#A:B;#C:D;n#E:F;")).2 =
      some (.strayText 'n' (some (chars "C"))) := by decide

open Msd in
example : parse_msd true false (chars "\\") = ([], some .lexerFailed) := by decide

-- Sanity checks: the embedding reproduces the output of tests/test_parameter.py.
open Msd in
example :
    serialize { components := [chars "key", chars "value"] } true false =
      .ok (chars "#key:value;") := by decide

open Msd in
example :
    serialize { components := [chars "ABC:DEF;GHI//JKL\\MNO"] } true false =
      .ok (chars "#ABC\\:DEF\\;GHI\\//JKL\\\\MNO;") := by decide

open Msd in
example :
    serialize { components := [chars "ABC//DEF", chars "abcdef"] } false false =
      .error .unescapableComponent := by decide

open Msd in
example :
    serialize
      { components := [chars "key", chars "value \nline two\nline 3\n"],
        preamble := some (chars "// Copyright 2024\n\n"),
        comments := [(0, chars "// comment")],
        escapePositions := some [],
        suffix := chars ";\n" } true true =
      .ok (chars "// Copyright 2024\n\n#key:value // comment\nline two\nline 3\n;\n") := by
  decide

open Msd in
example :
    serialize
      { components := [chars "key", chars "value: \nline two;\nline//3\n"],
        preamble := some (chars "// Copyright 2024\n\n"),
        comments := [(0, chars "// comment //")],
        escapePositions := some [10, 35, 42],
        suffix := chars ";\n" } true true =
      .ok (chars "// Copyright 2024\n\n#key:value\\: // comment //\nline two\\;\nline\\//3\n;\n") := by
  decide

open Msd in
example :
    serialize
      { components := [chars "key", chars "value: \nline two;\nline//3\n"],
        preamble := some (chars "// Copyright 2024\n\n"),
        comments := [(0, chars "// comment //")],
        escapePositions := some [10, 35, 42],
        suffix := chars ";\n" } false true =
      .error .exactEscapesContract := by decide

open Msd in
example :
    serialize
      { components := [chars "key", chars "value\r\n, \r\nline 3"],
        preamble := some (chars "// Copyright 2024\r\n\r\n"),
        comments := [(1, chars "// comment")],
        escapePositions := some [],
        suffix := chars ";\r\n" } true true =
      .ok (chars "// Copyright 2024\r\n\r\n#key:value\r\n, // comment\r\nline 3;\r\n") := by
  decide

/-! ### Lexer lemmas: decomposition, totality, fuel sufficiency -/

namespace Msd

@[simp] theorem concatTexts_nil : concatTexts [] = [] := rfl

@[simp] theorem concatTexts_cons (t : MSDToken × List Char)
    (ts : List (MSDToken × List Char)) :
    concatTexts (t :: ts) = t.2 ++ concatTexts ts := rfl

theorem concatTexts_append (a b : List (MSDToken × List Char)) :
    concatTexts (a ++ b) = concatTexts a ++ concatTexts b := by
  induction a with
  | nil => simp
  | cons t ts ih => simp [ih]

@[simp] theorem concatChunks_nil : concatChunks [] = [] := rfl

@[simp] theorem concatChunks_cons (c : List Char) (cs : List (List Char)) :
    concatChunks (c :: cs) = c ++ concatChunks cs := rfl

theorem regexMatch_eq {pm : LexerMatch} {buf m rest : List Char}
    (h : regexMatch pm buf = some (m, rest)) : m ++ rest = buf ∧ m ≠ [] := by
  cases pm <;> simp only [regexMatch] at h
  case ESCAPED_TEXT =>
    by_cases he : (buf.takeWhile fun c => !escapedTextStop c).isEmpty
    · simp [he] at h
    · rw [if_neg he] at h
      simp only [Option.some.injEq, Prod.mk.injEq] at h
      obtain ⟨rfl, rfl⟩ := h
      exact ⟨List.takeWhile_append_dropWhile _ _, by simpa [List.isEmpty_iff] using he⟩
  case UNESCAPED_TEXT =>
    by_cases he : (buf.takeWhile fun c => !unescapedTextStop c).isEmpty
    · simp [he] at h
    · rw [if_neg he] at h
      simp only [Option.some.injEq, Prod.mk.injEq] at h
      obtain ⟨rfl, rfl⟩ := h
      exact ⟨List.takeWhile_append_dropWhile _ _, by simpa [List.isEmpty_iff] using he⟩
  all_goals
    split at h <;>
      first
        | (simp only [Option.some.injEq, Prod.mk.injEq] at h
           obtain ⟨rfl, rfl⟩ := h
           simp [List.takeWhile_append_dropWhile])
        | simp at h

theorem findMatch_eq :
    ∀ {ps : List LexerPattern} {buf : List Char} {p : LexerPattern}
      {m rest : List Char},
      findMatch ps buf = some (p, m, rest) → p ∈ ps ∧ m ++ rest = buf ∧ m ≠ []
  | [], _, _, _, _, h => by simp [findMatch] at h
  | q :: ps, buf, p, m, rest, h => by
      rw [findMatch] at h
      cases hr : regexMatch q.pat buf with
      | some mr =>
          obtain ⟨m0, r0⟩ := mr
          rw [hr] at h
          simp only [Option.some.injEq, Prod.mk.injEq] at h
          obtain ⟨rfl, rfl, rfl⟩ := h
          have hre := regexMatch_eq hr
          exact ⟨by simp, hre.1, hre.2⟩
      | none =>
          rw [hr] at h
          have hm := findMatch_eq h
          exact ⟨by simp [hm.1], hm.2.1, hm.2.2⟩

theorem rstripWs_append_wsTail (l : List Char) : rstripWs l ++ wsTail l = l := by
  unfold rstripWs wsTail
  rw [← List.reverse_append, List.takeWhile_append_dropWhile, List.reverse_reverse]

theorem concatTexts_recovery (m : List Char) :
    concatTexts ((if (rstripWs m).isEmpty then [] else [(MSDToken.TEXT, rstripWs m)])
      ++ [(MSDToken.END_PARAMETER, wsTail m)]) = m := by
  by_cases hb : (rstripWs m).isEmpty
  · have hz : rstripWs m = [] := by simpa [List.isEmpty_iff] using hb
    have hs := rstripWs_append_wsTail m
    rw [hz, List.nil_append] at hs
    simp [hb, hs]
  · have hs := rstripWs_append_wsTail m
    simp only [hb, Bool.false_eq_true, if_false, concatTexts_append,
      concatTexts_cons, concatTexts_nil, List.append_nil]
    exact hs

theorem lexMatched_texts (inside : Bool) (p : LexerPattern) (m rest : List Char) :
    concatTexts (lexMatched inside p m rest).1 = m := by
  unfold lexMatched
  dsimp only
  split <;> split
  all_goals first
    | exact concatTexts_recovery m
    | simp

theorem lexMatched_rest (inside : Bool) (p : LexerPattern) (m rest : List Char) :
    (lexMatched inside p m rest).2.2 = rest := by
  unfold lexMatched
  dsimp only
  split <;> split <;> rfl

theorem lexStep_eq {e i : Bool} {buf : List Char}
    {out : List (MSDToken × List Char) × Bool × List Char}
    (h : lexStep e i buf = some out) :
    ∃ p m rest, findMatch (activePatterns e) buf = some (p, m, rest)
      ∧ out = lexMatched i p m rest := by
  unfold lexStep at h
  cases hfm : findMatch (activePatterns e) buf with
  | none => rw [hfm] at h; simp at h
  | some pmr =>
      obtain ⟨p, m, r⟩ := pmr
      rw [hfm] at h
      simp only [Option.some.injEq] at h
      exact ⟨p, m, r, rfl, h.symm⟩

theorem lexStep_concat {e i : Bool} {buf : List Char}
    {toks : List (MSDToken × List Char)} {i2 : Bool} {rest : List Char}
    (h : lexStep e i buf = some (toks, i2, rest)) :
    concatTexts toks ++ rest = buf := by
  obtain ⟨p, m, r, hfm, hout⟩ := lexStep_eq h
  have hd := (findMatch_eq hfm).2.1
  have ht : toks = (lexMatched i p m r).1 := by rw [← hout]
  have hr : rest = r := by rw [← lexMatched_rest i p m r, ← hout]
  rw [ht, hr, lexMatched_texts]
  exact hd

theorem lexStep_rest_length {e i : Bool} {buf : List Char}
    {toks : List (MSDToken × List Char)} {i2 : Bool} {rest : List Char}
    (h : lexStep e i buf = some (toks, i2, rest)) : rest.length < buf.length := by
  obtain ⟨p, m, r, hfm, hout⟩ := lexStep_eq h
  obtain ⟨-, hd, hm⟩ := findMatch_eq hfm
  have hr : rest = r := by rw [← lexMatched_rest i p m r, ← hout]
  have hlen : m.length + r.length = buf.length := by rw [← hd]; simp
  have hm0 : 0 < m.length := List.length_pos.mpr hm
  subst hr
  omega

theorem bufferReady_nil (d : Bool) : bufferReady d [] = false := by
  cases d <;> rfl

theorem bufferReady_false_done {buf : List Char}
    (h : bufferReady true buf = false) : buf = [] := by
  unfold bufferReady at h
  simp only [Bool.or_eq_false_iff, Bool.and_eq_false_iff] at h
  rcases h.2 with h2 | h2
  · simp at h2
  · simpa [List.isEmpty_iff] using h2

theorem bufferReady_true_ne_nil {d : Bool} {buf : List Char}
    (h : bufferReady d buf = true) : buf ≠ [] := by
  intro hb
  rw [hb, bufferReady_nil] at h
  exact Bool.false_ne_true h

theorem lexBufferF_nil (e d : Bool) (fuel : Nat) (i : Bool) :
    lexBufferF e d fuel i [] = ⟨[], i, [], .ok⟩ := by
  cases fuel <;> simp [lexBufferF, bufferReady_nil]

theorem lexBufferF_concat (e d : Bool) :
    ∀ (fuel : Nat) (i : Bool) (buf : List Char),
      concatTexts (lexBufferF e d fuel i buf).toks
        ++ (lexBufferF e d fuel i buf).buffer = buf
  | 0, i, buf => by
      unfold lexBufferF
      split <;> simp
  | fuel + 1, i, buf => by
      unfold lexBufferF
      split
      · cases hs : lexStep e i buf with
        | none => simp
        | some tir =>
            obtain ⟨toks, i2, rest⟩ := tir
            dsimp only
            rw [concatTexts_append, List.append_assoc,
              lexBufferF_concat e d fuel i2 rest]
            exact lexStep_concat hs
      · simp

theorem lexBufferF_ok_ready (e d : Bool) :
    ∀ (fuel : Nat) (i : Bool) (buf : List Char),
      (lexBufferF e d fuel i buf).status = .ok →
      bufferReady d (lexBufferF e d fuel i buf).buffer = false
  | 0, i, buf => by
      unfold lexBufferF
      split
      · intro h; simp at h
      · rename_i hr
        intro _
        dsimp only
        simpa using hr
  | fuel + 1, i, buf => by
      unfold lexBufferF
      split
      · cases hs : lexStep e i buf with
        | none => intro h; simp at h
        | some tir =>
            obtain ⟨toks, i2, rest⟩ := tir
            dsimp only
            exact lexBufferF_ok_ready e d fuel i2 rest
      · rename_i hr
        intro _
        dsimp only
        simpa using hr

theorem lexBufferF_fuel_status (e d : Bool) :
    ∀ (fuel : Nat) (i : Bool) (buf : List Char), buf.length ≤ fuel →
      (lexBufferF e d fuel i buf).status ≠ .outOfFuel
  | 0, i, buf => by
      intro hf
      unfold lexBufferF
      split
      · rename_i hr
        have hne := bufferReady_true_ne_nil hr
        have : buf.length ≠ 0 := by
          simpa [List.length_eq_zero] using hne
        omega
      · simp
  | fuel + 1, i, buf => by
      intro hf
      unfold lexBufferF
      split
      · cases hs : lexStep e i buf with
        | none => simp
        | some tir =>
            obtain ⟨toks, i2, rest⟩ := tir
            have hlt := lexStep_rest_length hs
            dsimp only
            exact lexBufferF_fuel_status e d fuel i2 rest (by omega)
      · simp

theorem lexChunksGo_concat (e : Bool) :
    ∀ (chunks : List (List Char)) (i : Bool) (buf : List Char),
      (lexChunksGo e chunks i buf).status = .ok →
      concatTexts (lexChunksGo e chunks i buf).toks = buf ++ concatChunks chunks
  | [], i, buf => by
      intro hok
      unfold lexChunksGo at hok ⊢
      have hc := lexBufferF_concat e true buf.length i buf
      have hb := bufferReady_false_done (lexBufferF_ok_ready e true buf.length i buf hok)
      rw [hb, List.append_nil] at hc
      simpa using hc
  | c :: cs, i, buf => by
      unfold lexChunksGo
      have hc1 := lexBufferF_concat e false (buf ++ c).length i (buf ++ c)
      cases hr : lexBufferF e false (buf ++ c).length i (buf ++ c) with
      | mk toks1 i1 b1 st1 =>
          rw [hr] at hc1
          dsimp only at hc1
          cases st1 with
          | ok =>
              dsimp only
              intro hok
              rw [concatTexts_append, lexChunksGo_concat e cs i1 b1 hok,
                ← List.append_assoc, hc1, concatChunks_cons, List.append_assoc]
          | failed => dsimp only; intro hok; simp at hok
          | outOfFuel => dsimp only; intro hok; simp at hok

theorem lexChunksGo_fuel_status (e : Bool) :
    ∀ (chunks : List (List Char)) (i : Bool) (buf : List Char),
      (lexChunksGo e chunks i buf).status ≠ .outOfFuel
  | [], i, buf => by
      unfold lexChunksGo
      exact lexBufferF_fuel_status e true buf.length i buf le_rfl
  | c :: cs, i, buf => by
      unfold lexChunksGo
      have h1 := lexBufferF_fuel_status e false (buf ++ c).length i (buf ++ c) le_rfl
      cases hr : lexBufferF e false (buf ++ c).length i (buf ++ c) with
      | mk toks1 i1 b1 st1 =>
          rw [hr] at h1
          dsimp only at h1
          cases st1 with
          | ok =>
              dsimp only
              have ih := lexChunksGo_fuel_status e cs i1 b1
              cases hr2 : lexChunksGo e cs i1 b1 with
              | mk toks2 i2 b2 st2 =>
                  rw [hr2] at ih
                  dsimp only at ih ⊢
                  exact ih
          | failed => simp
          | outOfFuel => simp at h1

theorem readChunksF_concat : ∀ (fuel : Nat) (s : List Char),
    concatChunks (readChunksF fuel s) = s
  | fuel, [] => by cases fuel <;> rfl
  | 0, c :: cr => by
      rw [show readChunksF 0 (c :: cr) = [c :: cr] from rfl]
      simp
  | fuel + 1, c :: cr => by
      rw [show readChunksF (fuel + 1) (c :: cr)
            = (c :: cr).take READ_SIZE :: readChunksF fuel ((c :: cr).drop READ_SIZE)
          from rfl,
        concatChunks_cons, readChunksF_concat fuel ((c :: cr).drop READ_SIZE)]
      exact List.take_append_drop _ _

theorem lexChunks_concat (escapes : Bool) (chunks : List (List Char))
    (h : (lexChunks escapes chunks).status = .ok) :
    concatTexts (lexChunks escapes chunks).toks = concatChunks chunks := by
  unfold lexChunks at h ⊢
  simpa using lexChunksGo_concat escapes chunks false [] h

theorem lex_msd_concat (escapes : Bool) (s : List Char)
    (h : (lex_msd escapes s).status = .ok) :
    concatTexts (lex_msd escapes s).toks = s := by
  unfold lex_msd at h ⊢
  rw [lexChunks_concat escapes (readChunks s) h]
  exact readChunksF_concat s.length s

/-! ### Totality of the pattern set for `escapes = False` -/

theorem activePatterns_false :
    activePatterns false =
      [ { pat := .UNESCAPED_TEXT, token_outside_param := .TEXT,
          token_inside_param := .TEXT, escapes := some false },
        { pat := .POUND, token_outside_param := .START_PARAMETER,
          token_inside_param := .TEXT },
        { pat := .COLON, token_outside_param := .TEXT,
          token_inside_param := .NEXT_COMPONENT },
        { pat := .SEMICOLON, token_outside_param := .TEXT,
          token_inside_param := .END_PARAMETER },
        { pat := .COMMENT, token_outside_param := .COMMENT,
          token_inside_param := .COMMENT },
        { pat := .SLASH, token_outside_param := .TEXT,
          token_inside_param := .TEXT } ] := by decide

theorem findMatch_false_total (c : Char) (cr : List Char) :
    findMatch (activePatterns false) (c :: cr) ≠ none := by
  rw [activePatterns_false]
  by_cases hstop : unescapedTextStop c
  · have hc : c = '/' ∨ c = ':' ∨ c = ';' ∨ c = '#' := by
      simpa [unescapedTextStop, or_assoc] using hstop
    rcases hc with rfl | rfl | rfl | rfl
    · cases cr with
      | nil => simp [findMatch, regexMatch, List.takeWhile_cons, hstop]
      | cons c2 cr2 =>
          by_cases h2 : c2 = '/'
          · subst h2; simp [findMatch, regexMatch, List.takeWhile_cons, hstop]
          · simp [findMatch, regexMatch, List.takeWhile_cons, hstop, h2]
    · simp [findMatch, regexMatch, List.takeWhile_cons, hstop]
    · simp [findMatch, regexMatch, List.takeWhile_cons, hstop]
    · simp [findMatch, regexMatch, List.takeWhile_cons, hstop]
  · simp [findMatch, regexMatch, List.takeWhile_cons, hstop]

theorem lexStep_false_total (i : Bool) (buf : List Char) (hb : buf ≠ []) :
    lexStep false i buf ≠ none := by
  obtain ⟨c, cr, rfl⟩ := List.exists_cons_of_ne_nil hb
  unfold lexStep
  cases hfm : findMatch (activePatterns false) (c :: cr) with
  | none => exact absurd hfm (findMatch_false_total c cr)
  | some pmr => simp

theorem lexBufferF_false_nofail (d : Bool) :
    ∀ (fuel : Nat) (i : Bool) (buf : List Char),
      (lexBufferF false d fuel i buf).status ≠ .failed
  | 0, i, buf => by
      unfold lexBufferF
      split <;> simp
  | fuel + 1, i, buf => by
      unfold lexBufferF
      split
      · rename_i hready
        cases hs : lexStep false i buf with
        | none => exact absurd hs (lexStep_false_total i buf (bufferReady_true_ne_nil hready))
        | some tir =>
            obtain ⟨toks, i2, rest⟩ := tir
            dsimp only
            exact lexBufferF_false_nofail d fuel i2 rest
      · simp

theorem lexChunksGo_false_nofail :
    ∀ (chunks : List (List Char)) (i : Bool) (buf : List Char),
      (lexChunksGo false chunks i buf).status ≠ .failed
  | [], i, buf => by
      unfold lexChunksGo
      exact lexBufferF_false_nofail true buf.length i buf
  | c :: cs, i, buf => by
      unfold lexChunksGo
      have h1 := lexBufferF_false_nofail false (buf ++ c).length i (buf ++ c)
      cases hr : lexBufferF false false (buf ++ c).length i (buf ++ c) with
      | mk toks1 i1 b1 st1 =>
          rw [hr] at h1
          dsimp only at h1
          cases st1 with
          | ok =>
              dsimp only
              have ih := lexChunksGo_false_nofail cs i1 b1
              cases hr2 : lexChunksGo false cs i1 b1 with
              | mk toks2 i2 b2 st2 =>
                  rw [hr2] at ih
                  dsimp only at ih ⊢
                  exact ih
          | failed => simp at h1
          | outOfFuel => simp

theorem lex_msd_false_ok (s : List Char) : (lex_msd false s).status = .ok := by
  unfold lex_msd lexChunks
  have h1 := lexChunksGo_false_nofail (readChunks s) false []
  have h2 := lexChunksGo_fuel_status false (readChunks s) false []
  cases h : (lexChunksGo false (readChunks s) false []).status with
  | ok => rfl
  | failed => exact absurd h h1
  | outOfFuel => exact absurd h h2

/-! ### Token-stream validity: alternation of StartParameter/EndParameter -/

theorem tokensValid_append :
    ∀ (a b : List (MSDToken × List Char)) (i : Bool),
      tokensValid i (a ++ b) = (tokensValid i a).bind (fun m => tokensValid m b)
  | [], b, i => by simp [tokensValid]
  | (t, s) :: ts, b, i => by
      cases t <;> cases i <;>
        simp [tokensValid, tokensValid_append ts b]

/-- The token tables of `LEXER_PATTERNS`: no pattern maps to
`START_PARAMETER` inside a parameter, and outside a parameter no pattern
maps to `NEXT_COMPONENT`, `END_PARAMETER` or `ESCAPE`. -/
theorem patterns_token_shape :
    ∀ p ∈ LEXER_PATTERNS,
      p.token_inside_param ≠ MSDToken.START_PARAMETER
      ∧ p.token_outside_param ≠ MSDToken.NEXT_COMPONENT
      ∧ p.token_outside_param ≠ MSDToken.END_PARAMETER
      ∧ p.token_outside_param ≠ MSDToken.ESCAPE := by decide

theorem activePatterns_sub (e : Bool) {p : LexerPattern}
    (hp : p ∈ activePatterns e) : p ∈ LEXER_PATTERNS :=
  (List.mem_filter.mp hp).1

theorem lexMatched_valid (i : Bool) (p : LexerPattern) (m rest : List Char)
    (h1 : p.token_inside_param ≠ MSDToken.START_PARAMETER)
    (h2 : p.token_outside_param ≠ MSDToken.NEXT_COMPONENT)
    (h3 : p.token_outside_param ≠ MSDToken.END_PARAMETER)
    (h4 : p.token_outside_param ≠ MSDToken.ESCAPE) :
    tokensValid i (lexMatched i p m rest).1 = some (lexMatched i p m rest).2.1 := by
  unfold lexMatched
  rcases i with _ | _
  · -- outside a parameter: the recovery condition is false
    dsimp only
    cases h5 : p.token_outside_param <;> simp_all [tokensValid]
  · -- inside a parameter
    dsimp only
    simp only [if_true]
    cases h5 : p.token_inside_param
    case TEXT =>
        split
        · by_cases hb : (rstripWs m).isEmpty <;> simp [hb, tokensValid]
        · simp [tokensValid]
    all_goals
      split
      · rename_i hcond
        simp at hcond
      · simp_all [tokensValid]

theorem lexStep_valid {e i : Bool} {buf : List Char}
    {toks : List (MSDToken × List Char)} {i2 : Bool} {rest : List Char}
    (h : lexStep e i buf = some (toks, i2, rest)) :
    tokensValid i toks = some i2 := by
  obtain ⟨p, m, r, hfm, hout⟩ := lexStep_eq h
  have hshape := patterns_token_shape p (activePatterns_sub e (findMatch_eq hfm).1)
  have hv := lexMatched_valid i p m r hshape.1 hshape.2.1 hshape.2.2.1 hshape.2.2.2
  have ht : toks = (lexMatched i p m r).1 := by rw [← hout]
  have hi : i2 = (lexMatched i p m r).2.1 := by rw [← hout]
  rw [ht, hi]
  exact hv

theorem lexBufferF_valid (e d : Bool) :
    ∀ (fuel : Nat) (i : Bool) (buf : List Char),
      tokensValid i (lexBufferF e d fuel i buf).toks
        = some (lexBufferF e d fuel i buf).inside
  | 0, i, buf => by
      unfold lexBufferF
      split <;> simp [tokensValid]
  | fuel + 1, i, buf => by
      unfold lexBufferF
      split
      · cases hs : lexStep e i buf with
        | none => simp [tokensValid]
        | some tir =>
            obtain ⟨toks, i2, rest⟩ := tir
            dsimp only
            rw [tokensValid_append, lexStep_valid hs, Option.some_bind]
            exact lexBufferF_valid e d fuel i2 rest
      · simp [tokensValid]

theorem lexChunksGo_valid (e : Bool) :
    ∀ (chunks : List (List Char)) (i : Bool) (buf : List Char),
      tokensValid i (lexChunksGo e chunks i buf).toks
        = some (lexChunksGo e chunks i buf).inside
  | [], i, buf => by
      unfold lexChunksGo
      exact lexBufferF_valid e true buf.length i buf
  | c :: cs, i, buf => by
      unfold lexChunksGo
      have h1 := lexBufferF_valid e false (buf ++ c).length i (buf ++ c)
      cases hr : lexBufferF e false (buf ++ c).length i (buf ++ c) with
      | mk toks1 i1 b1 st1 =>
          rw [hr] at h1
          dsimp only at h1
          cases st1 with
          | ok =>
              dsimp only
              rw [tokensValid_append, h1, Option.some_bind]
              exact lexChunksGo_valid e cs i1 b1
          | failed => dsimp only; exact h1
          | outOfFuel => dsimp only; exact h1

/-- Every `lex_msd` token stream is valid for the alternation automaton
started outside a parameter. -/
theorem lex_msd_valid (escapes : Bool) (s : List Char) :
    tokensValid false (lex_msd escapes s).toks = some (lex_msd escapes s).inside := by
  unfold lex_msd lexChunks
  exact lexChunksGo_valid escapes (readChunks s) false []

/-! ### Lenient parsing never raises -/

theorem push_text_false_ok (st : ParserState) (text nl : List Char)
    (e : MSDParserError) : push_text false st text nl ≠ .error e := by
  intro h
  unfold push_text at h
  split at h
  · exact Except.noConfusion h
  · simp only [Bool.and_false, Bool.false_and, Bool.false_eq_true, if_false] at h
    split at h <;> exact Except.noConfusion h

theorem processToken_false_no_error (escapes : Bool) (st : ParserState)
    (t : MSDToken) (v : List Char) :
    (processToken escapes false st t v).2.2 = none := by
  cases t
  case TEXT =>
      simp only [processToken]
      split
      · rfl
      · rename_i e heq
        exact absurd heq (push_text_false_ok _ _ _ _)
  case START_PARAMETER =>
      simp only [processToken]
      split <;> rfl
  case END_PARAMETER =>
      simp [processToken]
  case NEXT_COMPONENT => rfl
  case ESCAPE =>
      simp only [processToken]
      split
      · rfl
      · rename_i e heq
        exact absurd heq (push_text_false_ok _ _ _ _)
  case COMMENT =>
      simp only [processToken]
      split
      · rfl
      · split <;> rfl

theorem parseLoop_false_no_error (escapes : Bool) :
    ∀ (toks : List (MSDToken × List Char)) (st : ParserState),
      (parseLoop escapes false st toks).2.2 = none
  | [], st => rfl
  | (t, v) :: ts, st => by
      unfold parseLoop
      have hno := processToken_false_no_error escapes st t v
      cases hp : processToken escapes false st t v with
      | mk ps rest =>
          obtain ⟨st2, e⟩ := rest
          rw [hp] at hno
          dsimp only at hno
          subst hno
          dsimp only
          have ih := parseLoop_false_no_error escapes ts st2
          cases hl : parseLoop escapes false st2 ts with
          | mk ps2 rest2 =>
              obtain ⟨st3, e2⟩ := rest2
              rw [hl] at ih
              dsimp only at ih ⊢
              exact ih

theorem parse_msd_false_no_error (escapes : Bool) (s : List Char)
    (h : (lex_msd escapes s).status = .ok) :
    (parse_msd escapes false s).2 = none := by
  unfold parse_msd
  cases hlx : lex_msd escapes s with
  | mk toks inside buffer status =>
      rw [hlx] at h
      dsimp only at h
      subst h
      dsimp only
      have hno := parseLoop_false_no_error escapes toks initState
      cases hl : parseLoop escapes false initState toks with
      | mk ps rest =>
          obtain ⟨st, e⟩ := rest
          rw [hl] at hno
          dsimp only at hno
          subst hno
          rfl

end Msd

/-! ## Claim theorems -/

namespace Msd

/-- **C2** (corrected), counterexample: on the one-character input `"\"`
with escapes enabled no lexer pattern matches (`assert False` fires before
any token is yielded), so the concatenation of the yielded token texts is
empty rather than the input. -/
theorem c2_lossless_fails_on_lone_backslash :
    lex_msd true (chars "\\") = ⟨[], false, chars "\\", .failed⟩
      ∧ concatTexts (lex_msd true (chars "\\")).toks ≠ chars "\\" := by
  constructor
  · decide
  · decide

/-- **C2** (corrected, amended): whenever the lexer completes without its
`assert False` firing (`status = ok`), concatenating the text of every
yielded token reproduces the input exactly, for both escapes settings. -/
theorem c2_lossless_tokenization (escapes : Bool) (s : List Char)
    (h : (lex_msd escapes s).status = .ok) :
    concatTexts (lex_msd escapes s).toks = s :=
  lex_msd_concat escapes s h

/-- Witness for `c2_lossless_tokenization` at the input `"#A:B;"`. -/
theorem c2_lossless_witness :
    concatTexts (lex_msd true (chars "#A:B;")).toks = chars "#A:B;" :=
  c2_lossless_tokenization true (chars "#A:B;") (by decide)

/-- **C3** (corrected), counterexample: the same input delivered as the two
reads `"#A:B\n"` and `"#C;"` lexes differently from the whole string at
once: the chunk boundary right after the newline suppresses the
missing-semicolon recovery, so the second parameter is never opened. -/
theorem c3_chunking_changes_tokens :
    (lexChunks true [chars "#A:B\n", chars "#C;"]).toks =
      [(.START_PARAMETER, chars "#"), (.TEXT, chars "A"),
       (.NEXT_COMPONENT, chars ":"), (.TEXT, chars "B\n"),
       (.TEXT, chars "#"), (.TEXT, chars "C"), (.END_PARAMETER, chars ";")]
    ∧ (lex_msd true (chars "#A:B\n#C;")).toks =
      [(.START_PARAMETER, chars "#"), (.TEXT, chars "A"),
       (.NEXT_COMPONENT, chars ":"), (.TEXT, chars "B"),
       (.END_PARAMETER, chars "\n"),
       (.START_PARAMETER, chars "#"), (.TEXT, chars "C"),
       (.END_PARAMETER, chars ";")]
    ∧ (lexChunks true [chars "#A:B\n", chars "#C;"]).toks ≠
        (lex_msd true (chars "#A:B\n#C;")).toks := by
  refine ⟨by decide, by decide, by decide⟩

/-- **C3** (corrected, amended): the token sequence is not independent of
the chunking, but for every delivery of the input in pieces the
concatenation of the yielded token texts equals the delivered input whenever
lexing completes. -/
theorem c3_chunked_concatenation (escapes : Bool) (chunks : List (List Char))
    (h : (lexChunks escapes chunks).status = .ok) :
    concatTexts (lexChunks escapes chunks).toks = concatChunks chunks :=
  lexChunks_concat escapes chunks h

/-- Witness for `c3_chunked_concatenation` at the chunks `["#A", ":B;"]`. -/
theorem c3_chunked_concatenation_witness :
    concatTexts (lexChunks true [chars "#A", chars ":B;"]).toks
      = concatChunks [chars "#A", chars ":B;"] :=
  c3_chunked_concatenation true [chars "#A", chars ":B;"] (by decide)

/-- **C5** (corrected), counterexample: lexing *can* fail — the pattern set
is not total at end of input: `lex_msd` hits its `assert False` on the input
`"\"` with escapes enabled, and `parse_msd(strict=False)` propagates that
`AssertionError`. -/
theorem c5_lexing_can_fail :
    (lex_msd true (chars "\\")).status = .failed
      ∧ parse_msd true false (chars "\\") = ([], some .lexerFailed) := by
  constructor
  · decide
  · decide

/-- **C5** (corrected, amended): with escapes disabled the pattern set is
total and the lexer never fails; and whenever the lexer completes, lenient
(`strict=False`) parsing raises no error: every stray-text and
missing-semicolon condition is absorbed instead of raised. -/
theorem c5_lenient_never_raises :
    (∀ s : List Char, (lex_msd false s).status = .ok)
      ∧ (∀ (escapes : Bool) (s : List Char),
          (lex_msd escapes s).status = .ok → (parse_msd escapes false s).2 = none) :=
  ⟨lex_msd_false_ok, parse_msd_false_no_error⟩

/-- **C8** (confirmed): every token stream produced by `lex_msd` is accepted
by the alternation automaton started outside a parameter:
`START_PARAMETER`/`END_PARAMETER` strictly alternate beginning with
`START_PARAMETER`, and `NEXT_COMPONENT`, `END_PARAMETER` and `ESCAPE` tokens
occur only between a `START_PARAMETER` and its `END_PARAMETER`, so the first
metacharacter-class token can only be `START_PARAMETER` (or a `TEXT`
literal). -/
theorem c8_alternation (escapes : Bool) (s : List Char) :
    tokensValid false (lex_msd escapes s).toks = some (lex_msd escapes s).inside :=
  lex_msd_valid escapes s

/-- **C1** (code_bug): exact round-trip fails.  The input `"#A:#B;"` parses
without strict-mode errors into a parameter with a literal `#` in its value
and no recorded comments; `serialize(exact=True)` only runs the exact
component writer when comments are recorded, so it falls back to normalized
escaping and emits `"#A:\\#B;"`, not the original bytes.  (The repository's
own test acknowledges this: `test_real_file_args` expects the joined exact
serialization of `#Fairy_dancing_in_lake.sm` to differ from the file.) -/
theorem c1_exact_roundtrip_violated :
    parse_msd true true (chars "#A:#B;") =
      ([{ components := [chars "A", chars "#B"], preamble := some [],
          comments := [], escapePositions := some [], suffix := chars ";" }],
       none)
    ∧ serialize
        { components := [chars "A", chars "#B"], preamble := some [],
          comments := [], escapePositions := some [], suffix := chars ";" }
        true true = .ok (chars "#A:\\#B;")
    ∧ chars "#A:\\#B;" ≠ chars "#A:#B;" := by
  refine ⟨by decide, by decide, by decide⟩

/-- **C4** (corrected), counterexample: the text `" \uFEFF"` (a space
followed by the byte order mark) consists only of whitespace and the BOM,
yet strict parsing raises a stray-text error on it, because `push_text`
compares the whole fragment against the single-character BOM string. -/
theorem c4_bom_whitespace_mix_raises :
    parse_msd true true (chars " \uFEFF#A;") =
      ([], some (.strayText bomChar none)) := by decide

/-- **C4** (corrected, amended): with `strict=True`, `push_text` on text
outside any parameter raises exactly when the text is nonempty, not entirely
whitespace, and not exactly the single-character BOM string (so a mixture of
whitespace and the BOM does raise); the error carries the first character
after stripping leading whitespace and the key of the last completed
parameter (`None` at start of document). -/
theorem c4_strict_stray_condition (st : ParserState) (text nl : List Char)
    (hin : st.insideParameter = false) :
    ((∃ e, push_text true st text nl = Except.error e)
        ↔ text ≠ [] ∧ pyStrIsSpace text = false ∧ text ≠ [bomChar])
    ∧ ∀ e, push_text true st text nl = Except.error e →
        e = MSDParserError.strayText ((lstripPy text).headD ' ') st.lastKey := by
  unfold push_text
  rw [hin]
  simp only [Bool.false_eq_true, if_false]
  constructor
  · constructor
    · rintro ⟨e, he⟩
      split at he
      · rename_i hcond
        simp only [Bool.and_eq_true, Bool.not_eq_eq_eq_not, Bool.not_true,
          decide_eq_true_eq, List.isEmpty_eq_false] at hcond
        exact ⟨hcond.1.1.1, hcond.1.2, hcond.2⟩
      · split at he <;> exact Except.noConfusion he
    · rintro ⟨h1, h2, h3⟩
      refine ⟨MSDParserError.strayText ((lstripPy text).headD ' ') st.lastKey, ?_⟩
      rw [if_pos]
      simp only [Bool.and_eq_true, Bool.not_eq_eq_eq_not, Bool.not_true,
        decide_eq_true_eq, List.isEmpty_eq_false]
      exact ⟨⟨⟨h1, trivial⟩, h2⟩, h3⟩
  · intro e he
    split at he
    · simpa using he.symm
    · split at he <;> exact Except.noConfusion he

/-- Witness for `c4_strict_stray_condition` at the initial parser state and
the text `" \uFEFF"`. -/
theorem c4_strict_stray_witness :
    (∃ e, push_text true initState (chars " \uFEFF") (chars " \uFEFF")
        = Except.error e)
    ∧ ∀ e, push_text true initState (chars " \uFEFF") (chars " \uFEFF")
        = Except.error e →
        e = MSDParserError.strayText bomChar none := by
  have h := c4_strict_stray_condition initState (chars " \uFEFF")
    (chars " \uFEFF") (by decide)
  exact ⟨h.1.mpr (by refine ⟨by decide, by decide, by decide⟩),
    fun e he => (h.2 e he).trans (by decide)⟩

/-- **C6** (confirmed): `parse_msd` on `"#A:B\nCD;#E:FGH\n#IJKL"` yields
exactly the three parameters with components `("A","B\nCD")`, `("E","FGH")`
and `("IJKL",)`, the third recovered via newline (its terminator is the
`"\n"` recovery token, so its suffix is empty at EOF); and in
`"#Q:RST\n ! #U:V"` the `#` preceded by non-whitespace on its line stays
literal text inside the open parameter. -/
theorem c6_missing_terminator_recovery :
    parse_msd true false (chars "#A:B\nCD;#E:FGH\n#IJKL") =
      ([{ components := [chars "A", chars "B\nCD"], preamble := some [],
          comments := [], escapePositions := some [], suffix := chars ";" },
        { components := [chars "E", chars "FGH"], preamble := none,
          comments := [], escapePositions := some [], suffix := chars "\n" },
        { components := [chars "IJKL"], preamble := none,
          comments := [], escapePositions := some [], suffix := [] }],
       none)
    ∧ (parse_msd true false (chars "#Q:RST\n ! #U:V")).1.map
        (fun p => p.components)
      = [[chars "Q", chars "RST\n ! #U", chars "V"]] := by
  refine ⟨by decide, by decide⟩

/-- **C7** (corrected), counterexample: a parameter with a nonempty
`escape_positions` but *no* recorded comments serializes with `exact=True`
and `escapes=False` without any error (the exact component writer, which
holds the fail-fast check, only runs when comments are recorded), silently
dropping the escape. -/
theorem c7_no_error_without_comments :
    escapePositionsTruthy
        { components := [chars "A"], preamble := none, comments := [],
          escapePositions := some [1], suffix := chars ";" } = true
    ∧ serialize
        { components := [chars "A"], preamble := none, comments := [],
          escapePositions := some [1], suffix := chars ";" }
        false true = .ok (chars "#A;") := by
  refine ⟨by decide, by decide⟩

/-- **C7** (corrected, amended): when the parameter *also* has recorded
comments (so the exact component writer runs), exact serialization with
`escapes=False` and truthy `escape_positions` fails fast with the contract
`ValueError` before writing any component. -/
theorem c7_exact_escapes_contract (p : MSDParameter)
    (h1 : p.comments ≠ []) (h2 : escapePositionsTruthy p = true) :
    serialize p false true = .error .exactEscapesContract := by
  have hc : p.comments.isEmpty = false := by
    simp [List.isEmpty_iff, h1]
  simp [serialize, serialize_components_exact, hc, h2]

/-- Witness for `c7_exact_escapes_contract` at a concrete parameter. -/
theorem c7_exact_escapes_contract_witness :
    serialize
      { components := [chars "A"], preamble := none,
        comments := [(0, chars "//x")], escapePositions := some [2],
        suffix := chars ";" }
      false true = .error .exactEscapesContract :=
  c7_exact_escapes_contract _ (by decide) (by decide)

/-- **C10** (confirmed): the parser's line counter for comment bookkeeping
advances only on `'\n'` characters of the pushed token (`value.count("\n")`),
so a bare `'\r'` does not increment it and a comment after a bare-`'\r'`
break is recorded at the same line index as the text before the break; the
lexer nevertheless treats `'\r'` as a line break both for terminating
comments and for the missing-semicolon recovery; and the serializer's
`UNTIL_NEWLINE` pattern only ever matches `"\n"` or `"\r\n"` newlines, so
exact serialization re-inserts comments only before those. -/
theorem c10_carriage_return_line_counting :
    (∀ (strict : Bool) (st : ParserState) (text nl : List Char)
        (st2 : ParserState), push_text strict st text nl = .ok st2 →
        st2.lineInsideParameter = st.lineInsideParameter
          + (if st.insideParameter then nl.count '\n' else 0))
    ∧ parse_msd true false (chars "#A\rB// c\r\n;") =
        ([{ components := [chars "A\rB\r\n"], preamble := some [],
            comments := [(0, chars "// c")], escapePositions := some [],
            suffix := chars ";" }],
         none)
    ∧ (lex_msd true (chars "#A// c\rX;")).toks =
        [(.START_PARAMETER, chars "#"), (.TEXT, chars "A"),
         (.COMMENT, chars "// c"), (.TEXT, chars "\rX"),
         (.END_PARAMETER, chars ";")]
    ∧ (lex_msd true (chars "#A:B\r#C;")).toks =
        [(.START_PARAMETER, chars "#"), (.TEXT, chars "A"),
         (.NEXT_COMPONENT, chars ":"), (.TEXT, chars "B"),
         (.END_PARAMETER, chars "\r"),
         (.START_PARAMETER, chars "#"), (.TEXT, chars "C"),
         (.END_PARAMETER, chars ";")]
    ∧ (∀ (comp a nlm rest : List Char),
        untilNewline comp = some (a, nlm, rest) →
        nlm = ['\n'] ∨ nlm = ['\r', '\n']) := by
  refine ⟨?_, by decide, by decide, by decide, ?_⟩
  · intro strict st text nl st2 h
    unfold push_text at h
    split at h
    · rename_i hin
      simp only [Except.ok.injEq] at h
      subst h
      simp [hin]
    · rename_i hin
      have hin2 : st.insideParameter = false := by
        simpa using hin
      split at h
      · exact Except.noConfusion h
      · split at h <;>
          · simp only [Except.ok.injEq] at h
            subst h
            simp [hin2]
  · intro comp a nlm rest h
    unfold untilNewline at h
    split at h <;> simp_all

/-! ### C9: adjacency of Text tokens -/

theorem noAdjacentRuns_append (e : Bool) :
    ∀ (a b : List (MSDToken × List Char)),
      noAdjacentRuns e a = true → noAdjacentRuns e b = true →
      (lastIsRun e a = true → firstIsRun e b = false) →
      noAdjacentRuns e (a ++ b) = true
  | [], b, _, hb, _ => hb
  | [t], b, _, hb, hseam => by
      cases b with
      | nil => simp [noAdjacentRuns]
      | cons u bs =>
          simp only [List.singleton_append, noAdjacentRuns, Bool.and_eq_true]
          refine ⟨?_, hb⟩
          by_cases hr : isRunText e t
          · have h2 := hseam (by simp [lastIsRun, hr])
            simp only [firstIsRun, List.head?_cons] at h2
            simp only [Option.map, Option.getD] at h2
            simp [hr, h2]
          · simp [hr]
  | t1 :: t2 :: ts, b, ha, hb, hseam => by
      simp only [noAdjacentRuns, Bool.and_eq_true] at ha
      simp only [List.cons_append, noAdjacentRuns, Bool.and_eq_true]
      refine ⟨ha.1, ?_⟩
      have hrec := noAdjacentRuns_append e (t2 :: ts) b ha.2 hb
        (fun hl => hseam (by simpa [lastIsRun, List.getLast?_cons_cons] using hl))
      simpa using hrec

theorem firstIsRun_append (e : Bool) (t : MSDToken × List Char)
    (a b : List (MSDToken × List Char)) :
    firstIsRun e ((t :: a) ++ b) = firstIsRun e (t :: a) := by
  simp [firstIsRun]

theorem lastIsRun_append (e : Bool) (a : List (MSDToken × List Char))
    (t : MSDToken × List Char) (b : List (MSDToken × List Char)) :
    lastIsRun e (a ++ (t :: b)) = lastIsRun e (t :: b) := by
  simp only [lastIsRun, List.getLast?_append]
  cases hbl : (t :: b).getLast? with
  | none => simp at hbl
  | some x => simp

/-- **C9** (corrected), counterexample: the input `"a/b"` lexes into three
consecutive `TEXT` tokens (`"a"`, the bare slash `"/"`, `"b"`), so Text
tokens are not maximal in the claimed sense.  (The repository's own
`test_tokens_with_escapes` likewise expects the adjacent `TEXT` tokens
`"MNO\nPQR"`, `"#"`, `" STU"`.) -/
theorem c9_adjacent_text_tokens :
    (lex_msd true (chars "a/b")).toks =
      [(.TEXT, chars "a"), (.TEXT, chars "/"), (.TEXT, chars "b")]
    ∧ noAdjacentText (lex_msd true (chars "a/b")).toks = false := by
  refine ⟨by decide, by decide⟩

theorem findMatch_matched :
    ∀ {ps : List LexerPattern} {buf : List Char} {p : LexerPattern}
      {m rest : List Char},
      findMatch ps buf = some (p, m, rest) → regexMatch p.pat buf = some (m, rest)
  | [], _, _, _, _, h => by simp [findMatch] at h
  | q :: ps, buf, p, m, rest, h => by
      rw [findMatch] at h
      cases hr : regexMatch q.pat buf with
      | some mr =>
          obtain ⟨m0, r0⟩ := mr
          rw [hr] at h
          simp only [Option.some.injEq, Prod.mk.injEq] at h
          obtain ⟨rfl, rfl, rfl⟩ := h
          exact hr
      | none =>
          rw [hr] at h
          exact findMatch_matched h

theorem takeWhile_all {α : Type} (p : α → Bool) :
    ∀ l : List α, (l.takeWhile p).all p = true
  | [] => rfl
  | a :: l => by
      by_cases h : p a
      · simp [List.takeWhile_cons, h, takeWhile_all p l]
      · simp [List.takeWhile_cons, h]

theorem headStop_dropWhile (e : Bool) :
    ∀ l : List Char,
      headStopOrNil e (l.dropWhile (fun c => !textStop e c)) = true
  | [] => rfl
  | c :: l => by
      by_cases h : textStop e c
      · simp [List.dropWhile_cons, h, headStopOrNil]
      · simp [List.dropWhile_cons, h, headStop_dropWhile e l]

/-- Classification of a successful pattern match: either it is the maximal
text run (all characters pass the run predicate and the remaining buffer
starts with a stopper or is empty), or the matched text starts with a
run-stopping character, or the pattern is the comment pattern. -/
theorem findMatch_classify {e : Bool} {buf : List Char} {p : LexerPattern}
    {m r : List Char}
    (h : findMatch (activePatterns e) buf = some (p, m, r)) :
    (m.all (fun c => !textStop e c) = true ∧ headStopOrNil e r = true)
    ∨ textStop e (m.headD ' ') = true
    ∨ (p.token_outside_param = MSDToken.COMMENT
        ∧ p.token_inside_param = MSDToken.COMMENT) := by
  have hreg := findMatch_matched h
  have hmem := (findMatch_eq h).1
  have hmemL : p ∈ LEXER_PATTERNS ∧ (p.escapes = none || p.escapes = some e) = true := by
    simpa [activePatterns, List.mem_filter] using hmem
  obtain ⟨hL, hesc⟩ := hmemL
  simp only [LEXER_PATTERNS, List.mem_cons, List.not_mem_nil, or_false] at hL
  rcases hL with rfl | rfl | rfl | rfl | rfl | rfl | rfl | rfl
  · -- ESCAPED_TEXT
    have he : e = true := by simpa using hesc
    subst he
    left
    simp only [regexMatch] at hreg
    split at hreg
    · exact absurd hreg (by simp)
    · simp only [Option.some.injEq, Prod.mk.injEq] at hreg
      obtain ⟨rfl, rfl⟩ := hreg
      constructor
      · simp [textStop]
      · have h2 := headStop_dropWhile true buf
        simpa [textStop] using h2
  · -- UNESCAPED_TEXT
    have he : e = false := by simpa using hesc
    subst he
    left
    simp only [regexMatch] at hreg
    split at hreg
    · exact absurd hreg (by simp)
    · simp only [Option.some.injEq, Prod.mk.injEq] at hreg
      obtain ⟨rfl, rfl⟩ := hreg
      constructor
      · simp [textStop]
      · have h2 := headStop_dropWhile false buf
        simpa [textStop] using h2
  · -- POUND
    right; left
    simp only [regexMatch] at hreg
    split at hreg
    · simp only [Option.some.injEq, Prod.mk.injEq] at hreg
      obtain ⟨rfl, rfl⟩ := hreg
      cases e <;> decide
    · exact absurd hreg (by simp)
  · -- COLON
    right; left
    simp only [regexMatch] at hreg
    split at hreg
    · simp only [Option.some.injEq, Prod.mk.injEq] at hreg
      obtain ⟨rfl, rfl⟩ := hreg
      cases e <;> decide
    · exact absurd hreg (by simp)
  · -- SEMICOLON
    right; left
    simp only [regexMatch] at hreg
    split at hreg
    · simp only [Option.some.injEq, Prod.mk.injEq] at hreg
      obtain ⟨rfl, rfl⟩ := hreg
      cases e <;> decide
    · exact absurd hreg (by simp)
  · -- ESCAPE
    have he : e = true := by simpa using hesc
    subst he
    right; left
    simp only [regexMatch] at hreg
    split at hreg
    · simp only [Option.some.injEq, Prod.mk.injEq] at hreg
      obtain ⟨rfl, rfl⟩ := hreg
      show textStop true '\\' = true
      decide
    · exact absurd hreg (by simp)
  · -- COMMENT
    right; right
    exact ⟨rfl, rfl⟩
  · -- SLASH
    right; left
    simp only [regexMatch] at hreg
    split at hreg
    · simp only [Option.some.injEq, Prod.mk.injEq] at hreg
      obtain ⟨rfl, rfl⟩ := hreg
      cases e <;> decide
    · exact absurd hreg (by simp)

theorem isRunText_stop_head {e : Bool} {t : MSDToken} {c : Char}
    {cs : List Char} (h : textStop e c = true) :
    isRunText e (t, c :: cs) = false := by
  simp [isRunText, h]

theorem singleTok_runs (e : Bool) (tok : MSDToken) (c : Char) (mt r : List Char)
    (hcls : ((c :: mt).all (fun x => !textStop e x) = true ∧ headStopOrNil e r = true)
      ∨ textStop e ((c :: mt).headD ' ') = true
      ∨ tok = MSDToken.COMMENT) :
    ([(tok, c :: mt)] ≠ ([] : List (MSDToken × List Char)))
    ∧ noAdjacentRuns e [(tok, c :: mt)] = true
    ∧ (headStopOrNil e ((c :: mt) ++ r) = true → firstIsRun e [(tok, c :: mt)] = false)
    ∧ (lastIsRun e [(tok, c :: mt)] = true → headStopOrNil e r = true) := by
  refine ⟨by simp, by simp [noAdjacentRuns], ?_, ?_⟩
  · intro hstop
    have hstopc : textStop e c = true := by simpa [headStopOrNil] using hstop
    simp [firstIsRun, isRunText_stop_head hstopc]
  · intro hl
    have hl2 : isRunText e (tok, c :: mt) = true := by
      simpa [lastIsRun] using hl
    rcases hcls with ⟨hall, hr⟩ | hstop | hco
    · exact hr
    · rw [isRunText_stop_head (show textStop e c = true by simpa using hstop)] at hl2
      exact absurd hl2 (by simp)
    · subst hco
      simp [isRunText] at hl2

theorem lexMatched_runs (e i : Bool) (p : LexerPattern) (m r : List Char)
    (hm : m ≠ [])
    (hcls : (m.all (fun c => !textStop e c) = true ∧ headStopOrNil e r = true)
      ∨ textStop e (m.headD ' ') = true
      ∨ (p.token_outside_param = MSDToken.COMMENT
          ∧ p.token_inside_param = MSDToken.COMMENT)) :
    (lexMatched i p m r).1 ≠ []
    ∧ noAdjacentRuns e (lexMatched i p m r).1 = true
    ∧ (headStopOrNil e (m ++ r) = true → firstIsRun e (lexMatched i p m r).1 = false)
    ∧ (lastIsRun e (lexMatched i p m r).1 = true → headStopOrNil e r = true) := by
  obtain ⟨c, mt, rfl⟩ := List.exists_cons_of_ne_nil hm
  unfold lexMatched
  rcases i with _ | _
  · -- outside a parameter: the recovery condition is false
    dsimp only
    rw [if_neg (by simp)]
    exact singleTok_runs e p.token_outside_param c mt r
      (hcls.imp id (Or.imp id And.left))
  · -- inside a parameter
    dsimp only
    simp only [if_true]
    split
    · -- recovery branch
      refine ⟨by simp, ?_, ?_, ?_⟩
      · by_cases hb : (rstripWs (c :: mt)).isEmpty <;>
          simp [hb, noAdjacentRuns, isRunText]
      · intro hstop
        have hstopc : textStop e c = true := by simpa [headStopOrNil] using hstop
        by_cases hb : (rstripWs (c :: mt)).isEmpty
        · simp [hb, firstIsRun, isRunText]
        · cases hsp : rstripWs (c :: mt) with
          | nil => simp [hsp] at hb
          | cons b bs =>
              have hs := rstripWs_append_wsTail (c :: mt)
              rw [hsp] at hs
              simp only [List.cons_append] at hs
              have hbc : b = c := (List.cons_eq_cons.mp hs).1
              subst hbc
              simp [hsp, firstIsRun, isRunText_stop_head hstopc]
      · intro hl
        by_cases hb : (rstripWs (c :: mt)).isEmpty <;>
          simp [hb, lastIsRun, isRunText] at hl
    · -- single-token branch
      exact singleTok_runs e p.token_inside_param c mt r
        (hcls.imp id (Or.imp id And.right))

theorem lexStep_runs {e i : Bool} {buf : List Char}
    {toks : List (MSDToken × List Char)} {i2 : Bool} {rest : List Char}
    (h : lexStep e i buf = some (toks, i2, rest)) :
    toks ≠ [] ∧ noAdjacentRuns e toks = true
    ∧ (headStopOrNil e buf = true → firstIsRun e toks = false)
    ∧ (lastIsRun e toks = true → headStopOrNil e rest = true) := by
  obtain ⟨p, m, r, hfm, hout⟩ := lexStep_eq h
  obtain ⟨-, hbuf, hm⟩ := findMatch_eq hfm
  have hcls := findMatch_classify hfm
  have hruns := lexMatched_runs e i p m r hm hcls
  have ht : toks = (lexMatched i p m r).1 := by rw [← hout]
  have hr : rest = r := by rw [← lexMatched_rest i p m r, ← hout]
  rw [ht, hr, ← hbuf]
  exact hruns

theorem lexBufferF_runs (e d : Bool) :
    ∀ (fuel : Nat) (i : Bool) (buf : List Char),
      noAdjacentRuns e (lexBufferF e d fuel i buf).toks = true
      ∧ ((lexBufferF e d fuel i buf).toks = [] →
          (lexBufferF e d fuel i buf).buffer = buf)
      ∧ (headStopOrNil e buf = true →
          firstIsRun e (lexBufferF e d fuel i buf).toks = false)
      ∧ (lastIsRun e (lexBufferF e d fuel i buf).toks = true →
          headStopOrNil e (lexBufferF e d fuel i buf).buffer = true)
  | 0, i, buf => by
      unfold lexBufferF
      split <;>
        exact ⟨rfl, fun _ => rfl, fun _ => rfl, fun h => by simp [lastIsRun] at h⟩
  | fuel + 1, i, buf => by
      unfold lexBufferF
      split
      · cases hs : lexStep e i buf with
        | none =>
            exact ⟨rfl, fun _ => rfl, fun _ => rfl, fun h => by simp [lastIsRun] at h⟩
        | some tir =>
            obtain ⟨toks1, i2, rest⟩ := tir
            obtain ⟨t1ne, n1, f1, l1⟩ := lexStep_runs hs
            obtain ⟨n2, e2, f2, l2⟩ := lexBufferF_runs e d fuel i2 rest
            dsimp only
            refine ⟨?_, ?_, ?_, ?_⟩
            · exact noAdjacentRuns_append e toks1 _ n1 n2
                (fun hl => f2 (l1 hl))
            · intro hnil
              exact absurd (List.append_eq_nil.mp hnil).1 t1ne
            · intro hstop
              obtain ⟨t, ta, rfl⟩ := List.exists_cons_of_ne_nil t1ne
              rw [firstIsRun_append]
              exact f1 hstop
            · intro hl
              cases ht2 : (lexBufferF e d fuel i2 rest).toks with
              | nil =>
                  rw [ht2, List.append_nil] at hl
                  rw [e2 ht2]
                  exact l1 hl
              | cons u us =>
                  rw [ht2, lastIsRun_append] at hl
                  apply l2
                  rw [ht2]
                  exact hl
      · exact ⟨rfl, fun _ => rfl, fun _ => rfl, fun h => by simp [lastIsRun] at h⟩

theorem readChunks_small {s : List Char} (h1 : s ≠ []) (h2 : s.length ≤ READ_SIZE) :
    readChunks s = [s] := by
  obtain ⟨c, cr, rfl⟩ := List.exists_cons_of_ne_nil h1
  unfold readChunks
  rw [show (c :: cr).length = cr.length + 1 from by simp]
  rw [show readChunksF (cr.length + 1) (c :: cr)
        = (c :: cr).take READ_SIZE :: readChunksF cr.length ((c :: cr).drop READ_SIZE)
      from rfl]
  rw [List.take_of_length_le (by simpa using h2),
    List.drop_eq_nil_of_le (by simpa using h2)]
  have hnil : readChunksF cr.length [] = [] := by
    cases cr.length <;> rfl
  rw [hnil]

/-- **C9** (corrected, amended): for inputs that fit in a single
`read(4096)` call, no two consecutive tokens are both maximal text runs
(nonempty `TEXT` tokens free of the run-stopping metacharacters); the
adjacent `TEXT` tokens that do occur always involve a literal
metacharacter token (`/`, a `#` inside a parameter, a `:` or `;` outside,
or an escape pair outside a parameter). -/
theorem c9_no_adjacent_runs (escapes : Bool) (s : List Char)
    (hlen : s.length ≤ READ_SIZE) :
    noAdjacentRuns escapes (lex_msd escapes s).toks = true := by
  by_cases hs0 : s = []
  · subst hs0
    rw [show lex_msd escapes [] = lexBufferF escapes true 0 false [] from rfl,
      lexBufferF_nil]
    rfl
  · rw [lex_msd, readChunks_small hs0 hlen]
    unfold lexChunks lexChunksGo
    cases hr1 : lexBufferF escapes false ([] ++ s).length false ([] ++ s) with
    | mk toks1 i1 b1 st1 =>
        have h1 := lexBufferF_runs escapes false ([] ++ s).length false ([] ++ s)
        rw [hr1] at h1
        dsimp only at h1
        cases st1 with
        | ok =>
            dsimp only
            rw [show lexChunksGo escapes [] i1 b1
                  = lexBufferF escapes true b1.length i1 b1 from rfl]
            have h2 := lexBufferF_runs escapes true b1.length i1 b1
            exact noAdjacentRuns_append escapes toks1 _ h1.1 h2.1
              (fun hl => h2.2.2.1 (h1.2.2.2 hl))
        | failed => exact h1.1
        | outOfFuel => exact h1.1

/-- Witness for `c9_no_adjacent_runs` at the input `"x:y"`. -/
theorem c9_no_adjacent_runs_witness :
    noAdjacentRuns true (lex_msd true (chars "x:y")).toks = true :=
  c9_no_adjacent_runs true (chars "x:y") (by decide)

end Msd
